import Mathlib

/-!
Verification development for the proxy-agent acquisition pipeline.

The definitions below are shallow embeddings of the Python source:
* `src/utils/frequency_control.py` (token-bucket rate limiter),
* `src/utils/proxy_pool.py` (rotating proxy pool),
* `src/services/data_fetcher.py` (bounded-retry fetch loop),
* `src/tasks/scheduled_tasks.py` (batch upsert and the daily run task).

Floating-point time, token and price arithmetic is embedded over `ℚ`
(the claims only involve exact values); `datetime` values are embedded as
abstract `ℤ` day stamps.  Randomness (`random.uniform`, `random.shuffle`)
is passed in as explicit data.  An uncaught Python exception is embedded
as the `.error` case of `Except`.
-/

/-! ## FrequencyController (src/utils/frequency_control.py) -/

/-- State of `FrequencyController`: `rate` is `requests_per_second`,
`tokens` the current bucket content, `lastUpdate` the `last_update`
timestamp.  The `Lock` is irrelevant to the sequential semantics. -/
structure FrequencyController where
  rate : ℚ
  tokens : ℚ
  lastUpdate : ℚ
deriving DecidableEq

/-- Embedding of `_update_tokens`: refill by elapsed time, capped at 1.0.  The source
converts through microseconds (`elapsed * 1_000_000` multiplied by
`rate / 1_000_000`); over `ℚ` the two factors are kept literally. -/
def updateTokens (now : ℚ) (fc : FrequencyController) : FrequencyController :=
  let elapsedMicroseconds := (now - fc.lastUpdate) * 1000000
  let addedTokens := elapsedMicroseconds * (fc.rate / 1000000)
  { fc with tokens := min (fc.tokens + addedTokens) 1, lastUpdate := now }

/-- Embedding of `can_request`: refill, then consume one token if at least one is
available, else leave the state (other than the refill) untouched. -/
def can_request (now : ℚ) (fc : FrequencyController) : Bool × FrequencyController :=
  let fc1 := updateTokens now fc
  if 1 ≤ fc1.tokens then (true, { fc1 with tokens := fc1.tokens - 1 })
  else (false, fc1)

/-- The `if timeout and (time.time() - start_time) > timeout` test of
`wait_if_needed`: `None` and `0.0` are both falsy, so they disable the
timeout entirely. -/
def timeoutActive (timeout : Option ℚ) (elapsed : ℚ) : Bool :=
  match timeout with
  | none => false
  | some t => if t = 0 then false else decide (t < elapsed)

/-- Embedding of `wait_if_needed`, with a deterministic clock: inside one loop
iteration no time passes, and `time.sleep(w)` advances the clock by
exactly `w`.  `fuel` bounds the number of iterations; `none` means the
loop was still polling when the fuel ran out.  The source guards the
`wait_seconds` computation by `tokens < 1.0`, which always holds here
because `can_request` has just failed at the same instant. -/
def wait_if_needed (fuel : Nat) (timeout : Option ℚ) (startTime : ℚ) (now : ℚ)
    (fc : FrequencyController) : Option (Bool × ℚ × FrequencyController) :=
  match fuel with
  | 0 => none
  | fuel + 1 =>
    match can_request now fc with
    | (true, fc1) => some (true, now, fc1)
    | (false, fc1) =>
      let fc2 := updateTokens now fc1
      let waitSeconds := (1 - fc2.tokens) / fc2.rate
      if timeoutActive timeout (now - startTime) then some (false, now, fc2)
      else
        let w := max (1 / 10) (min waitSeconds 1)
        wait_if_needed fuel timeout startTime (now + w) fc2

/-! ## ProxyManager (src/utils/proxy_pool.py) -/

/-- The uncaught Python exceptions our embedding distinguishes. -/
inductive PyError where
  | indexError
deriving DecidableEq

/-- State of `ProxyManager`: `proxies` is the active rotation list,
`failedProxies` the quarantine list, `currentIndex` the rotation cursor.
The unused `pool_size` attribute and the user-agent list are omitted. -/
structure ProxyManager where
  proxies : List String
  failedProxies : List String
  currentIndex : Nat
deriving DecidableEq

/-- Embedding of `get_proxy`: `None` on an empty pool, otherwise
`proxies[current_index]` (which raises `IndexError` when the cursor is
out of range) and the cursor advances modulo the pool size.  The returned
`{"http": p, "https": p}` dictionary is represented by the proxy string
itself. -/
def get_proxy (pm : ProxyManager) : Except PyError (Option String × ProxyManager) :=
  if pm.proxies = [] then .ok (none, pm)
  else
    match pm.proxies.get? pm.currentIndex with
    | none => .error .indexError
    | some p =>
      .ok (some p, { pm with currentIndex := (pm.currentIndex + 1) % pm.proxies.length })

/-- Embedding of `add_proxy`: append only when absent from both lists. -/
def add_proxy (pm : ProxyManager) (p : String) : ProxyManager :=
  if p ∉ pm.proxies ∧ p ∉ pm.failedProxies then
    { pm with proxies := pm.proxies ++ [p] }
  else pm

/-- Embedding of `remove_proxy`: move a present proxy from `proxies` to
`failed_proxies`.  Note: `current_index` is left untouched. -/
def remove_proxy (pm : ProxyManager) (p : String) : ProxyManager :=
  if p ∈ pm.proxies then
    { pm with proxies := pm.proxies.erase p, failedProxies := pm.failedProxies ++ [p] }
  else pm

/-- Embedding of `rotate_proxies`: the shuffled order is passed in as data; the cursor
resets to 0 on a non-empty pool. -/
def rotate_proxies (pm : ProxyManager) (shuffled : List String) : ProxyManager :=
  if pm.proxies = [] then pm
  else { pm with proxies := shuffled, currentIndex := 0 }

/-- Sequence of `n` successive `get_proxy` calls, collecting the returned values;
an `IndexError` anywhere aborts the sequence. -/
def getProxySeq (n : Nat) (pm : ProxyManager) :
    Except PyError (List (Option String) × ProxyManager) :=
  match n with
  | 0 => .ok ([], pm)
  | n + 1 =>
    match get_proxy pm with
    | .error e => .error e
    | .ok (p, pm1) =>
      match getProxySeq n pm1 with
      | .error e => .error e
      | .ok (ps, pm2) => .ok (p :: ps, pm2)

/-! ## DataFetcher.fetch_daily_quotes (src/services/data_fetcher.py) -/

/-- One row of the akshare daily DataFrame, already parsed into the
fields `_upsert_quotes` reads (`日期/开盘/最高/最低/收盘/成交量/成交额`). -/
structure RawRow where
  date : ℤ
  openP : ℚ
  highP : ℚ
  lowP : ℚ
  closeP : ℚ
  volume : ℤ
  amount : ℚ
deriving DecidableEq

/-- An exception raised by the remote fetch.  The fetcher only inspects
whether `"timeout" in str(e).lower()`, recorded as `isTimeout`. -/
structure FetchError where
  isTimeout : Bool
deriving DecidableEq

/-- Environment of one `fetch_daily_quotes` call, indexed by the attempt
counter `retry_count`: the result of `wait_if_needed` (a `Bool`), the
outcome of `ak.stock_zh_a_hist` (`.ok none` stands for `df is None`,
`.ok (some [])` for an empty DataFrame), and the `random.uniform(0, 1)`
jitter draw. -/
structure FetchEnv where
  freqOk : Nat → Bool
  fetch : Nat → Except FetchError (Option (List RawRow))
  jitter : Nat → ℚ

/-- The backoff sleep of the `except` branch: performed only while
`retry_count < max_retries - 1`, of duration `2 ** retry_count +
random.uniform(0, 1)`. -/
def sleepOpt (env : FetchEnv) (maxRetries rc : Nat) : Option ℚ :=
  if rc < maxRetries - 1 then some ((2 : ℚ) ^ rc + env.jitter rc) else none

/-- Outcome of one iteration of the retry loop: either the function
returns (`finished`), or the `except` branch ran and the loop continues
(`next`, carrying the possibly-updated pool, the proxies passed to
`remove_proxy`, the backoff sleep, and whether the caught exception was
an `IndexError` raised by `get_proxy` itself). -/
inductive StepOut where
  | finished (result : Option (List RawRow)) (pm : ProxyManager)
  | next (pm : ProxyManager) (evicted : List String) (slept : Option ℚ) (proxyError : Bool)
deriving DecidableEq

/-- The proxies evicted by a step. -/
def evictedOf : StepOut → List String
  | .finished _ _ => []
  | .next _ ev _ _ => ev

/-- One iteration of the `while retry_count < max_retries` body.
`wait_if_needed` returning `False` breaks out of the loop, after which
the function returns `None`.  A non-empty DataFrame is returned
immediately; `None`/empty is returned immediately as `None`.  On an
exception, the proxy is evicted exactly when a proxy dictionary was in
use and the message contains `"timeout"`; an `IndexError` escaping
`get_proxy` is caught by the same `except` with `proxy_dict` still
`None` (its message has no `"timeout"`), so it never evicts. -/
def fetchStep (env : FetchEnv) (maxRetries rc : Nat) (pm : ProxyManager) : StepOut :=
  if env.freqOk rc = false then .finished none pm
  else
    match get_proxy pm with
    | .error _ => .next pm [] (sleepOpt env maxRetries rc) true
    | .ok (pd, pm1) =>
      match env.fetch rc with
      | .ok df =>
        match df with
        | some rows => if rows.isEmpty then .finished none pm1 else .finished (some rows) pm1
        | none => .finished none pm1
      | .error e =>
        match pd with
        | some p =>
          if e.isTimeout then .next (remove_proxy pm1 p) [p] (sleepOpt env maxRetries rc) false
          else .next pm1 [] (sleepOpt env maxRetries rc) false
        | none => .next pm1 [] (sleepOpt env maxRetries rc) false

/-- Observable trace of one `fetch_daily_quotes` call: the returned
value, the number of loop iterations entered, every proxy passed to
`remove_proxy`, every backoff sleep duration, the number of caught
`IndexError`s from `get_proxy`, and the final pool state. -/
structure FetchTrace where
  result : Option (List RawRow)
  iterations : Nat
  evictions : List String
  sleeps : List ℚ
  proxyErrors : Nat
  pm : ProxyManager
deriving DecidableEq

/-- The retry loop.  `fuel` is `max_retries - retry_count`, so the loop
guard `retry_count < max_retries` is `fuel > 0`. -/
def fetchGo (env : FetchEnv) (maxRetries rc fuel : Nat) (pm : ProxyManager)
    (its : Nat) (evs : List String) (sls : List ℚ) (pes : Nat) : FetchTrace :=
  match fuel with
  | 0 => ⟨none, its, evs, sls, pes, pm⟩
  | fuel + 1 =>
    match fetchStep env maxRetries rc pm with
    | .finished df pm1 => ⟨df, its + 1, evs, sls, pes, pm1⟩
    | .next pm2 ev sl pe =>
      fetchGo env maxRetries (rc + 1) fuel pm2 (its + 1) (evs ++ ev)
        (sls ++ sl.toList) (pes + if pe then 1 else 0)

/-- Embedding of `fetch_daily_quotes`: run the retry loop from `retry_count = 0`.
The function returns the DataFrame on non-empty success and `None` in
every other case (empty result, frequency-control timeout, retries
exhausted). -/
def fetch_daily_quotes (env : FetchEnv) (maxRetries : Nat) (pm : ProxyManager) : FetchTrace :=
  fetchGo env maxRetries 0 maxRetries pm 0 [] [] 0

/-! ## _upsert_quotes (src/tasks/scheduled_tasks.py) -/

/-- The per-record dictionary `_upsert_quotes` builds from a DataFrame
row (`adjust_factor` defaulted to 1.0). -/
structure QuoteRecord where
  date : ℤ
  openPrice : ℚ
  highPrice : ℚ
  lowPrice : ℚ
  closePrice : ℚ
  volume : ℤ
  amount : ℚ
  adjustFactor : ℚ
deriving DecidableEq

/-- A stored `DailyQuote` row, keyed by `(stock_code, date)`. -/
structure DailyQuoteRow where
  stockCode : String
  date : ℤ
  openPrice : ℚ
  highPrice : ℚ
  lowPrice : ℚ
  closePrice : ℚ
  volume : ℤ
  amount : ℚ
  adjustFactor : ℚ
deriving DecidableEq

/-- Conversion of a DataFrame row into the record dictionary. -/
def toRecord (r : RawRow) : QuoteRecord :=
  ⟨r.date, r.openP, r.highP, r.lowP, r.closeP, r.volume, r.amount, 1⟩

/-- The update branch: overwrite every non-key field of an existing row. -/
def applyRecord (rec : QuoteRecord) (row : DailyQuoteRow) : DailyQuoteRow :=
  { row with
    openPrice := rec.openPrice, highPrice := rec.highPrice,
    lowPrice := rec.lowPrice, closePrice := rec.closePrice,
    volume := rec.volume, amount := rec.amount, adjustFactor := rec.adjustFactor }

/-- The insert branch: a fresh `DailyQuote` row. -/
def mkRow (stockCode : String) (rec : QuoteRecord) : DailyQuoteRow :=
  ⟨stockCode, rec.date, rec.openPrice, rec.highPrice, rec.lowPrice,
   rec.closePrice, rec.volume, rec.amount, rec.adjustFactor⟩

/-- Key test for the `(stock_code, date)` uniqueness constraint. -/
def isKey (stockCode : String) (d : ℤ) (row : DailyQuoteRow) : Bool :=
  row.stockCode == stockCode && row.date == d

/-- The `records[i:i + batch_size]` slicing of `for i in range(0, len, bs)`,
for a positive batch size. -/
def chunks (bs : Nat) : List α → List (List α)
  | [] => []
  | x :: xs =>
    match bs with
    | 0 => []
    | bs + 1 => (x :: xs).take (bs + 1) :: chunks (bs + 1) ((x :: xs).drop (bs + 1))
termination_by l => l.length
decreasing_by simp; omega

/-- Processing of one record against the chunk-start query snapshot: the
session runs with `autoflush=False`, so every chunk's
`db.query(DailyQuote)` sees only rows committed before the call
(`snapshot`); updates mutate the matching stored row in place, inserts
append a pending row. -/
def stepRecord (stockCode : String) (snapshot : List DailyQuoteRow)
    (acc : Nat × List DailyQuoteRow) (rec : QuoteRecord) : Nat × List DailyQuoteRow :=
  if snapshot.any (isKey stockCode rec.date) then
    (acc.1 + 1, acc.2.map fun row => if isKey stockCode rec.date row then applyRecord rec row else row)
  else
    (acc.1 + 1, acc.2 ++ [mkRow stockCode rec])

/-- One chunk of the batch loop: look up existing rows for the chunk's
dates, then branch per record. -/
def upsertChunk (stockCode : String) (snapshot : List DailyQuoteRow)
    (acc : Nat × List DailyQuoteRow) (chunk : List QuoteRecord) : Nat × List DailyQuoteRow :=
  chunk.foldl (stepRecord stockCode snapshot) acc

/-- Embedding of `_upsert_quotes`: `0` on `None`/empty input, otherwise chunked
insert-or-update of every record, counting each record regardless of
branch.  Returns the count and the stored rows after the caller's
`db.commit()`. -/
def _upsert_quotes (batchSize : Nat) (db : List DailyQuoteRow) (stockCode : String)
    (df : Option (List RawRow)) : Nat × List DailyQuoteRow :=
  match df with
  | none => (0, db)
  | some rows =>
    if rows.isEmpty then (0, db)
    else
      let records := rows.map toRecord
      let bs := max 1 batchSize
      (chunks bs records).foldl (upsertChunk stockCode db) (0, db)

/-! ## fetch_daily_data_task (src/tasks/scheduled_tasks.py) -/

/-- A `Stock` row resolved by the universe query. -/
structure StockRow where
  code : String
  name : String
deriving DecidableEq

/-- The `FetchHistory.status` values. -/
inductive RunStatus where
  | running
  | success
  | failed
deriving DecidableEq

/-- The persisted `FetchHistory` audit row. -/
structure FetchHistoryRow where
  fetchType : String
  status : RunStatus
  stocksProcessed : Nat
  recordsInserted : Nat
  errorMessage : Option String
  completed : Bool
deriving DecidableEq

/-- The dictionary the Celery task returns to its caller. -/
inductive TaskReturn where
  | success (stocksProcessed recordsInserted : Nat)
  | failed (error : String)
deriving DecidableEq

/-- Environment of one `fetch_daily_data_task` run: the resolved
universe (the non-ST stock query result), the value each
`fetch_daily_quotes` call returns per stock code, the configured batch
size, and whether the final audit-store `db.commit()` raises. -/
structure TaskEnv where
  stockList : List StockRow
  fetchResult : String → Option (List RawRow)
  batchSize : Nat
  finalizeCommitFails : Bool

/-- One pass of the per-instrument loop body: the fetcher's return value
is inspected (`df is not None and not df.empty`); on data, the upsert
runs and that instrument's rows are committed; `stocks_processed` is
incremented in every case.  A `None` return from the fetcher (retries
exhausted, empty result or frequency timeout) is not an exception, so
the surrounding `try` never fires for it. -/
def processStock (env : TaskEnv) (acc : Nat × Nat × List DailyQuoteRow)
    (stock : StockRow) : Nat × Nat × List DailyQuoteRow :=
  let (sp, ri, db) := acc
  match env.fetchResult stock.code with
  | some rows =>
    if rows.isEmpty then (sp + 1, ri, db)
    else
      let (c, db1) := _upsert_quotes env.batchSize db stock.code (some rows)
      (sp + 1, ri + c, db1)
  | none => (sp + 1, ri, db)

/-- The `str(e)` recorded when the finalize commit raises. -/
def auditErrorMessage : String := "audit store commit failed"

/-- Embedding of `fetch_daily_data_task`.  The audit row is inserted with
`status="running"`, the universe is processed sequentially, then the row
is finalized to `success`.  If the finalize `db.commit()` raises, the
outer `except` rolls the pending field assignments back (reverting the
counters to their last committed values, 0), records
`status="failed"` with the error message, and the task RETURNS a
failed-status dictionary — the exception is not re-raised, so the
`Except` layer (an uncaught exception propagating to the Celery caller)
is always `.ok`.  Per-instrument commits already performed stay in the
store. -/
def fetch_daily_data_task (env : TaskEnv) (db0 : List DailyQuoteRow) :
    Except String TaskReturn × FetchHistoryRow × List DailyQuoteRow :=
  let (sp, ri, db1) := env.stockList.foldl (processStock env) (0, 0, db0)
  if env.finalizeCommitFails then
    (.ok (.failed auditErrorMessage),
     ⟨"scheduled", .failed, 0, 0, some auditErrorMessage, true⟩, db1)
  else
    (.ok (.success sp ri),
     ⟨"scheduled", .success, sp, ri, none, true⟩, db1)

/-- The number of records an instrument's fetch return value
contributes to `records_inserted`: the row count on a non-empty
DataFrame, 0 otherwise (`None` return or empty DataFrame). -/
def contributionOf (df : Option (List RawRow)) : Nat :=
  match df with
  | some rows => if rows.isEmpty then 0 else rows.length
  | none => 0

/-! ## Claim C4: token-bucket refill and single acquire -/

/-- C4: for every rate `r > 0` and an empty bucket, after elapsed time at
least `1 / r` a `can_request` call refills the bucket by `elapsed * r`
capped at capacity 1.0, succeeds consuming the token, and an immediately
following `can_request` at the same instant returns `false` leaving the
token count unchanged: it succeeds exactly once before failing again. -/
theorem C4_token_bucket_acquire_once (r t0 t : ℚ) (hr : 0 < r) (ht : 1 / r ≤ t - t0) :
    can_request t ⟨r, 0, t0⟩ = (true, ⟨r, 0, t⟩) ∧
    can_request t ⟨r, 0, t⟩ = (false, ⟨r, 0, t⟩) := by
  have h1 : 1 ≤ (t - t0) * r := by
    have := (div_le_iff₀ hr).1 ht
    linarith
  have heq : (0 : ℚ) + (t - t0) * 1000000 * (r / 1000000) = (t - t0) * r := by ring
  have hmin : min ((0 : ℚ) + (t - t0) * 1000000 * (r / 1000000)) 1 = 1 := by
    rw [heq]
    exact min_eq_right h1
  have hfill : updateTokens t ⟨r, 0, t0⟩ = ⟨r, 1, t⟩ := by
    simp only [updateTokens, hmin]
  have hzero : updateTokens t ⟨r, 0, t⟩ = ⟨r, 0, t⟩ := by
    simp only [updateTokens]
    norm_num
  constructor
  · simp only [can_request, hfill]
    norm_num
  · simp only [can_request, hzero]
    norm_num

/-- Witness for C4 at `r = 1`, `t0 = 0`, `t = 1`. -/
theorem C4_token_bucket_acquire_once_witness :
    can_request 1 ⟨1, 0, 0⟩ = (true, ⟨1, 0, 1⟩) ∧
    can_request 1 ⟨1, 0, 1⟩ = (false, ⟨1, 0, 1⟩) :=
  C4_token_bucket_acquire_once 1 0 1 (by norm_num) (by norm_num)

/-! ## Claim C10: a zero timeout disables the timeout -/

/-- C10: `wait_if_needed` with `timeout = 0` behaves exactly as with no
timeout at all — the `if timeout and ...` truthiness test treats `0` as
falsy — and in particular such a call can never return `False` because
of the timeout. -/
theorem C10_zero_timeout_ignored (fuel : Nat) :
    ∀ (startTime now : ℚ) (fc : FrequencyController),
      wait_if_needed fuel (some 0) startTime now fc =
        wait_if_needed fuel none startTime now fc ∧
      ∀ b t fc1, wait_if_needed fuel (some 0) startTime now fc = some (b, t, fc1) →
        b = true := by
  induction fuel with
  | zero =>
    intro s n fc
    refine ⟨rfl, ?_⟩
    intro b t fc1 h
    simp [wait_if_needed] at h
  | succ fuel ih =>
    intro s n fc
    constructor
    · simp only [wait_if_needed]
      rcases h : can_request n fc with ⟨b, fc1⟩
      cases b
      · simp only [timeoutActive]
        norm_num
        exact (ih s _ _).1
      · rfl
    · intro b t fc1 hcall
      simp only [wait_if_needed] at hcall
      rcases h : can_request n fc with ⟨b0, fc2⟩
      rw [h] at hcall
      cases b0
      · simp only [timeoutActive] at hcall
        norm_num at hcall
        exact (ih s _ _).2 b t fc1 hcall
      · simp only [Option.some.injEq, Prod.mk.injEq] at hcall
        exact hcall.1.symm

/-- Witness for C10 at `fuel = 1`, a full bucket and rate 1: the call
with `timeout = 0` equals the no-timeout call, and its successful return
carries `b = true`. -/
theorem C10_zero_timeout_ignored_witness :
    wait_if_needed 1 (some 0) 0 0 ⟨1, 1, 0⟩ = wait_if_needed 1 none 0 0 ⟨1, 1, 0⟩ ∧
    true = true := by
  have hc : can_request 0 ⟨1, 1, 0⟩ = (true, ⟨1, 0, 0⟩) := by
    simp only [can_request, updateTokens]
    norm_num
  exact ⟨(C10_zero_timeout_ignored 1 0 0 ⟨1, 1, 0⟩).1,
    (C10_zero_timeout_ignored 1 0 0 ⟨1, 1, 0⟩).2 true 0 ⟨1, 0, 0⟩
      (by simp [wait_if_needed, hc])⟩

/-! ## Claim C5: the markFailed cursor bug -/

/-- C5: the claim states that `markFailed` recomputes the cursor safely
when it removes an entry.  The code does not: starting from the pool
`["a", "b"]`, one `get_proxy` advances the cursor to 1, and
`remove_proxy "a"` then shrinks the active list to `["b"]` while leaving
`current_index = 1`, violating the cursor-validity invariant; the next
`get_proxy` evaluates `self.proxies[1]` on a one-element list and raises
`IndexError` — contradicting its own contract of returning a proxy
dictionary or `None`. -/
theorem C5_markFailed_cursor_not_recomputed :
    get_proxy ⟨["a", "b"], [], 0⟩ = .ok (some "a", ⟨["a", "b"], [], 1⟩) ∧
    remove_proxy ⟨["a", "b"], [], 1⟩ "a" = ⟨["b"], ["a"], 1⟩ ∧
    ¬ (remove_proxy ⟨["a", "b"], [], 1⟩ "a").currentIndex <
        (remove_proxy ⟨["a", "b"], [], 1⟩ "a").proxies.length ∧
    get_proxy ⟨["b"], ["a"], 1⟩ = .error .indexError :=
  ⟨rfl, by decide, by decide, rfl⟩

/-! ## Claim C9: round-robin rotation -/

/-- Evaluation of `get_proxy` on a pool with a valid cursor returns the cursor's proxy
and advances the cursor modulo the pool size. -/
theorem get_proxy_valid (l fp : List String) (c : Nat) (h : c < l.length) :
    get_proxy ⟨l, fp, c⟩ = .ok (some (l.get ⟨c, h⟩), ⟨l, fp, (c + 1) % l.length⟩) := by
  have hne : l ≠ [] := List.ne_nil_of_length_pos (Nat.lt_of_le_of_lt (Nat.zero_le c) h)
  simp only [get_proxy, hne, if_false, List.get?_eq_get h]

/-- Closed form of `n` successive `get_proxy` calls on a valid pool:
the values are the pool entries at offsets `cursor, cursor+1, ...`
modulo the pool size, and the cursor ends at `(cursor + n) % size`. -/
theorem getProxySeq_formula (l fp : List String) (hl : l ≠ []) :
    ∀ (n c : Nat), c < l.length →
      getProxySeq n ⟨l, fp, c⟩ =
        .ok ((List.range n).map (fun i => some (l.getD ((c + i) % l.length) "")),
             ⟨l, fp, (c + n) % l.length⟩) := by
  intro n
  induction n with
  | zero =>
    intro c hc
    simp [getProxySeq, Nat.mod_eq_of_lt hc]
  | succ n ih =>
    intro c hc
    have hpos : 0 < l.length := List.length_pos.2 hl
    have hc1 : (c + 1) % l.length < l.length := Nat.mod_lt _ hpos
    simp only [getProxySeq, get_proxy_valid l fp c hc, ih ((c + 1) % l.length) hc1]
    refine congrArg _ (Prod.ext ?_ ?_)
    · simp only [List.range_succ_eq_map, List.map_cons, List.map_map]
      congr 1
      · rw [List.getD_eq_getElem?_getD, List.getElem?_eq_getElem (by simpa [Nat.mod_eq_of_lt hc]),
            List.get_eq_getElem]
        simp [Nat.mod_eq_of_lt hc]
      · apply List.map_congr_left
        intro i _
        have hx : ((c + 1) % l.length + i) % l.length = (c + (i + 1)) % l.length := by
          rw [Nat.mod_add_mod]
          congr 1
          omega
        simp [Function.comp, Nat.succ_eq_add_one, hx]
    · simp only
      have hx : ((c + 1) % l.length + n) % l.length = (c + (n + 1)) % l.length := by
        rw [Nat.mod_add_mod]
        congr 1
        omega
      rw [hx]

/-- The offset formula is exactly the rotation of the pool at the
cursor. -/
theorem range_map_eq_rotate (l : List String) (c : Nat) (h : c < l.length) :
    (List.range l.length).map (fun i => some (l.getD ((c + i) % l.length) "")) =
      (l.rotate c).map some := by
  apply List.ext_getElem
  · simp
  · intro i h1 h2
    have hpos : 0 < l.length := Nat.lt_of_le_of_lt (Nat.zero_le c) h
    have hi : i < l.length := by simpa using h1
    have hmod : (c + i) % l.length < l.length := Nat.mod_lt _ hpos
    simp only [List.getElem_map, List.getElem_range, List.getElem_rotate]
    rw [List.getD_eq_getElem?_getD, List.getElem?_eq_getElem hmod]
    simp only [Option.getD_some, Option.some.injEq]
    have hmod2 : (i + c) % l.length < l.length := Nat.mod_lt _ hpos
    have hx : l[(c + i) % l.length]? = l[(i + c) % l.length]? := by rw [Nat.add_comm c i]
    rw [List.getElem?_eq_getElem hmod, List.getElem?_eq_getElem hmod2] at hx
    exact Option.some.inj hx

/-- C9: from any pool state with `N ≥ 1` active proxies and a valid
cursor, `N` consecutive `get_proxy` calls return each active proxy
exactly once (the returned list is a permutation of the pool), in the
stable pool order starting at the cursor (`rotate`), and the final state
equals the initial one, so the same order repeats on further calls; on
an empty pool `get_proxy` returns `None` and mutates nothing. -/
theorem C9_round_robin (pm : ProxyManager) :
    (pm.proxies = [] → get_proxy pm = .ok (none, pm)) ∧
    (pm.currentIndex < pm.proxies.length →
      getProxySeq pm.proxies.length pm =
        .ok ((pm.proxies.rotate pm.currentIndex).map some, pm) ∧
      (pm.proxies.rotate pm.currentIndex).Perm pm.proxies) := by
  obtain ⟨l, fp, c⟩ := pm
  constructor
  · intro hempty
    simp only at hempty
    simp [get_proxy, hempty]
  · intro h
    simp only at h
    have hl : l ≠ [] := List.ne_nil_of_length_pos (Nat.lt_of_le_of_lt (Nat.zero_le c) h)
    refine ⟨?_, List.rotate_perm l c⟩
    rw [getProxySeq_formula l fp hl l.length c h, range_map_eq_rotate l c h]
    have : (c + l.length) % l.length = c := by
      rw [Nat.add_mod_right]
      exact Nat.mod_eq_of_lt h
    rw [this]

/-- Witness for C9 on the pool `["a", "b"]` with cursor 1. -/
theorem C9_round_robin_witness :
    getProxySeq 2 ⟨["a", "b"], [], 1⟩ =
      .ok ((["a", "b"].rotate 1).map some, ⟨["a", "b"], [], 1⟩) ∧
    (["a", "b"].rotate 1).Perm ["a", "b"] :=
  (C9_round_robin ⟨["a", "b"], [], 1⟩).2 (by decide)


/-! ## Claim C2: timeout retries, eviction classification -/

/-- On an empty pool, an always-timing-out source drives the loop to the
bottom of its fuel: every iteration goes through the `except` branch,
never evicting (there is no proxy in use). -/
theorem fetchGo_empty_pool_timeout (env : FetchEnv) (mr : Nat) (fp : List String) (ci : Nat)
    (hfreq : ∀ i, env.freqOk i = true)
    (hfetch : ∀ i, env.fetch i = .error ⟨true⟩) :
    ∀ (fuel rc its : Nat) (evs : List String) (sls : List ℚ) (pes : Nat),
      (fetchGo env mr rc fuel ⟨[], fp, ci⟩ its evs sls pes).result = none ∧
      (fetchGo env mr rc fuel ⟨[], fp, ci⟩ its evs sls pes).iterations = its + fuel ∧
      (fetchGo env mr rc fuel ⟨[], fp, ci⟩ its evs sls pes).evictions = evs := by
  intro fuel
  induction fuel with
  | zero =>
    intro rc its evs sls pes
    exact ⟨rfl, rfl, rfl⟩
  | succ fuel ih =>
    intro rc its evs sls pes
    have hstep : fetchStep env mr rc ⟨[], fp, ci⟩ =
        .next ⟨[], fp, ci⟩ [] (sleepOpt env mr rc) false := by
      simp [fetchStep, get_proxy, hfreq rc, hfetch rc]
    simp only [fetchGo, hstep]
    refine ⟨(ih _ _ _ _ _).1, ?_, ?_⟩
    · rw [(ih _ _ _ _ _).2.1]
      omega
    · rw [(ih _ _ _ _ _).2.2]
      simp

/-- C2: (a) a call through a single-proxy pool whose every attempt times
out performs exactly `maxRetries` loop iterations, evicts the used proxy
(exactly once here — afterwards the pool is empty), and returns the
failure value `None`; (b) on any attempt that obtains a proxy dictionary
and catches an exception, the eviction performed is exactly the used
proxy when the error is timeout-class and nothing otherwise — eviction
happens iff a proxy was in use and the error message contains
`"timeout"`. -/
theorem C2_timeout_eviction_classified :
    (∀ (env : FetchEnv) (p : String) (mr : Nat), 1 ≤ mr →
      (∀ i, env.freqOk i = true) →
      (∀ i, env.fetch i = .error ⟨true⟩) →
      (fetch_daily_quotes env mr ⟨[p], [], 0⟩).result = none ∧
      (fetch_daily_quotes env mr ⟨[p], [], 0⟩).iterations = mr ∧
      (fetch_daily_quotes env mr ⟨[p], [], 0⟩).evictions = [p]) ∧
    (∀ (env : FetchEnv) (mr rc : Nat) (pm pm1 : ProxyManager)
        (pd : Option String) (e : FetchError),
      env.freqOk rc = true →
      get_proxy pm = .ok (pd, pm1) →
      env.fetch rc = .error e →
      evictedOf (fetchStep env mr rc pm) = if e.isTimeout then pd.toList else []) := by
  constructor
  · intro env p mr hmr hfreq hfetch
    obtain ⟨k, rfl⟩ : ∃ k, mr = k + 1 := ⟨mr - 1, by omega⟩
    have hget : get_proxy ⟨[p], [], 0⟩ = .ok (some p, ⟨[p], [], 0⟩) := by
      simp [get_proxy]
    have hrm : remove_proxy ⟨[p], [], 0⟩ p = ⟨[], [p], 0⟩ := by
      simp [remove_proxy]
    have hstep : fetchStep env (k + 1) 0 ⟨[p], [], 0⟩ =
        .next ⟨[], [p], 0⟩ [p] (sleepOpt env (k + 1) 0) false := by
      simp [fetchStep, hget, hfreq 0, hfetch 0, hrm]
    have hrest := fetchGo_empty_pool_timeout env (k + 1) [p] 0 hfreq hfetch k 1 1 [p]
      (sleepOpt env (k + 1) 0).toList 0
    have hT : fetch_daily_quotes env (k + 1) ⟨[p], [], 0⟩ =
        fetchGo env (k + 1) 1 k ⟨[], [p], 0⟩ 1 [p] (sleepOpt env (k + 1) 0).toList 0 := by
      simp [fetch_daily_quotes, fetchGo, hstep]
    rw [hT]
    exact ⟨hrest.1, hrest.2.1.trans (by omega), hrest.2.2⟩
  · intro env mr rc pm pm1 pd e hfreq hget hfetch
    simp only [fetchStep, hfreq, hget, hfetch]
    cases pd with
    | none => cases e with | mk b => cases b <;> simp [evictedOf]
    | some p => cases e with | mk b => cases b <;> simp [evictedOf]

/-- Witness for C2: a two-retry call through the pool `["x"]` with every
attempt timing out, and a single non-timeout attempt through `["y"]`
evicting nothing. -/
theorem C2_timeout_eviction_classified_witness :
    ((fetch_daily_quotes ⟨fun _ => true, fun _ => .error ⟨true⟩, fun _ => 0⟩
        2 ⟨["x"], [], 0⟩).result = none ∧
     (fetch_daily_quotes ⟨fun _ => true, fun _ => .error ⟨true⟩, fun _ => 0⟩
        2 ⟨["x"], [], 0⟩).iterations = 2 ∧
     (fetch_daily_quotes ⟨fun _ => true, fun _ => .error ⟨true⟩, fun _ => 0⟩
        2 ⟨["x"], [], 0⟩).evictions = ["x"]) ∧
    evictedOf (fetchStep ⟨fun _ => true, fun _ => .error ⟨false⟩, fun _ => 0⟩
        3 0 ⟨["y"], [], 0⟩) = [] :=
  ⟨C2_timeout_eviction_classified.1 ⟨fun _ => true, fun _ => .error ⟨true⟩, fun _ => 0⟩
      "x" 2 (by omega) (fun _ => rfl) (fun _ => rfl),
   C2_timeout_eviction_classified.2 ⟨fun _ => true, fun _ => .error ⟨false⟩, fun _ => 0⟩
      3 0 ⟨["y"], [], 0⟩ ⟨["y"], [], 0⟩ (some "y") ⟨false⟩ rfl rfl rfl⟩

/-! ## Claim C3: two backoff sleeps, success on the third attempt -/

/-- C3 counterexample: with the two-proxy pool `["a", "b"]` and a source
that times out on attempts 1 and 2 and would return a non-empty series
on attempt 3, the call returns `None`, not the series: the first timeout
evicts proxy `a` but leaves the cursor at 1, so `get_proxy` raises
`IndexError` inside the `try` on attempts 2 and 3 (`proxyErrors = 2`)
and the source is never consulted again. -/
theorem C3_counterexample_eviction_breaks_third_attempt :
    (fetch_daily_quotes
        ⟨fun _ => true,
         fun i => if i = 2 then .ok (some [⟨1, 2, 3, 4, 5, 6, 7⟩]) else .error ⟨true⟩,
         fun _ => 0⟩ 3 ⟨["a", "b"], [], 0⟩).result = none ∧
    (fetch_daily_quotes
        ⟨fun _ => true,
         fun i => if i = 2 then .ok (some [⟨1, 2, 3, 4, 5, 6, 7⟩]) else .error ⟨true⟩,
         fun _ => 0⟩ 3 ⟨["a", "b"], [], 0⟩).proxyErrors = 2 :=
  ⟨rfl, rfl⟩

/-- A loop iteration that catches a fetch error, on a pool that is empty
or holds a single proxy under cursor 0, continues with a pool of the
same shape, with the scheduled backoff sleep. -/
theorem fetchStep_error_small_pool (env : FetchEnv) (mr rc : Nat) (pm : ProxyManager)
    (e : FetchError)
    (hp : pm.proxies = [] ∨ ∃ p, pm.proxies = [p] ∧ pm.currentIndex = 0)
    (hfreq : env.freqOk rc = true) (he : env.fetch rc = .error e) :
    ∃ pm1 ev, fetchStep env mr rc pm = .next pm1 ev (sleepOpt env mr rc) false ∧
      (pm1.proxies = [] ∨ ∃ p, pm1.proxies = [p] ∧ pm1.currentIndex = 0) := by
  obtain ⟨l, fp, ci⟩ := pm
  rcases hp with hemp | ⟨p, hl, hci⟩
  · simp only at hemp
    subst hemp
    exact ⟨⟨[], fp, ci⟩, [], by simp [fetchStep, get_proxy, hfreq, he], Or.inl rfl⟩
  · simp only at hl hci
    subst hl
    subst hci
    have hget : get_proxy ⟨[p], fp, 0⟩ = .ok (some p, ⟨[p], fp, 0⟩) := by
      simp [get_proxy]
    cases ht : e.isTimeout
    · refine ⟨⟨[p], fp, 0⟩, [], ?_, Or.inr ⟨p, rfl, rfl⟩⟩
      simp [fetchStep, hget, hfreq, he, ht]
    · refine ⟨⟨[], fp ++ [p], 0⟩, [p], ?_, Or.inl rfl⟩
      have hrm : remove_proxy ⟨[p], fp, 0⟩ p = ⟨[], fp ++ [p], 0⟩ := by
        simp [remove_proxy]
      simp [fetchStep, hget, hfreq, he, ht, hrm]

/-- A loop iteration whose fetch returns a non-empty DataFrame, on a
pool that is empty or single under cursor 0, returns it immediately. -/
theorem fetchStep_success_small_pool (env : FetchEnv) (mr rc : Nat) (pm : ProxyManager)
    (rows : List RawRow)
    (hp : pm.proxies = [] ∨ ∃ p, pm.proxies = [p] ∧ pm.currentIndex = 0)
    (hfreq : env.freqOk rc = true) (hok : env.fetch rc = .ok (some rows))
    (hrows : rows ≠ []) :
    ∃ pm1, fetchStep env mr rc pm = .finished (some rows) pm1 := by
  obtain ⟨l, fp, ci⟩ := pm
  have hre : rows.isEmpty = false := by
    cases rows with
    | nil => exact absurd rfl hrows
    | cons a t => rfl
  rcases hp with hemp | ⟨p, hl, hci⟩
  · simp only at hemp
    subst hemp
    exact ⟨⟨[], fp, ci⟩, by simp [fetchStep, get_proxy, hfreq, hok, hre]⟩
  · simp only at hl hci
    subst hl
    subst hci
    have hget : get_proxy ⟨[p], fp, 0⟩ = .ok (some p, ⟨[p], fp, 0⟩) := by
      simp [get_proxy]
    exact ⟨⟨[p], fp, 0⟩, by simp [fetchStep, hget, hfreq, hok, hre]⟩

/-- C3 (amended): for a call through at most one proxy (or none) — so
that the cursor bug exhibited by `C3_counterexample_eviction_breaks_third_attempt`
cannot fire — where the source fails on attempts 1 and 2 and returns a
non-empty series on attempt 3, the call returns the series after exactly
two backoff sleeps of `2 ^ a + uniform(0,1)` seconds (`≥ 1` then `≥ 2`
before jitter), with no third sleep. -/
theorem C3_two_backoffs_then_series (env : FetchEnv) (mr : Nat) (pm : ProxyManager)
    (rows : List RawRow) (e0 e1 : FetchError)
    (hmr : 3 ≤ mr)
    (hp : pm.proxies = [] ∨ ∃ p, pm.proxies = [p] ∧ pm.currentIndex = 0)
    (hfreq : ∀ i, env.freqOk i = true)
    (h0 : env.fetch 0 = .error e0)
    (h1 : env.fetch 1 = .error e1)
    (h2 : env.fetch 2 = .ok (some rows))
    (hrows : rows ≠ [])
    (hjit : ∀ i, 0 ≤ env.jitter i ∧ env.jitter i < 1) :
    (fetch_daily_quotes env mr pm).result = some rows ∧
    (fetch_daily_quotes env mr pm).sleeps = [2 ^ 0 + env.jitter 0, 2 ^ 1 + env.jitter 1] ∧
    (1 : ℚ) ≤ 2 ^ 0 + env.jitter 0 ∧
    (2 : ℚ) ≤ 2 ^ 1 + env.jitter 1 ∧
    (fetch_daily_quotes env mr pm).iterations = 3 := by
  obtain ⟨k, rfl⟩ : ∃ k, mr = k + 3 := ⟨mr - 3, by omega⟩
  have hsl0 : sleepOpt env (k + 3) 0 = some (2 ^ 0 + env.jitter 0) := by
    unfold sleepOpt
    rw [if_pos (by omega)]
  have hsl1 : sleepOpt env (k + 3) 1 = some (2 ^ 1 + env.jitter 1) := by
    unfold sleepOpt
    rw [if_pos (by omega)]
  obtain ⟨pm1, ev1, hs0, hp1⟩ := fetchStep_error_small_pool env (k + 3) 0 pm e0 hp (hfreq 0) h0
  obtain ⟨pm2, ev2, hs1, hp2⟩ := fetchStep_error_small_pool env (k + 3) 1 pm1 e1 hp1 (hfreq 1) h1
  obtain ⟨pm3, hs2⟩ := fetchStep_success_small_pool env (k + 3) 2 pm2 rows hp2 (hfreq 2) h2 hrows
  have htr : fetch_daily_quotes env (k + 3) pm =
      ⟨some rows, 3, ([] ++ ev1) ++ ev2,
       [2 ^ 0 + env.jitter 0, 2 ^ 1 + env.jitter 1], 0, pm3⟩ := by
    simp [fetch_daily_quotes, fetchGo, hs0, hs1, hs2, hsl0, hsl1]
  refine ⟨?_, ?_, ?_, ?_, ?_⟩
  · rw [htr]
  · rw [htr]
  · have := (hjit 0).1
    norm_num
    linarith
  · have := (hjit 1).1
    norm_num
    linarith
  · rw [htr]

/-- Witness for C3 (amended) on the single-proxy pool `["x"]` with
non-timeout failures on attempts 1–2 and a one-row series on attempt 3. -/
theorem C3_two_backoffs_then_series_witness :
    (fetch_daily_quotes
        ⟨fun _ => true,
         fun i => if i = 2 then .ok (some [⟨1, 2, 3, 4, 5, 6, 7⟩]) else .error ⟨false⟩,
         fun _ => 0⟩ 3 ⟨["x"], [], 0⟩).result = some [⟨1, 2, 3, 4, 5, 6, 7⟩] ∧
    (fetch_daily_quotes
        ⟨fun _ => true,
         fun i => if i = 2 then .ok (some [⟨1, 2, 3, 4, 5, 6, 7⟩]) else .error ⟨false⟩,
         fun _ => 0⟩ 3 ⟨["x"], [], 0⟩).sleeps = [2 ^ 0 + 0, 2 ^ 1 + 0] :=
  ⟨(C3_two_backoffs_then_series
      ⟨fun _ => true,
       fun i => if i = 2 then .ok (some [⟨1, 2, 3, 4, 5, 6, 7⟩]) else .error ⟨false⟩,
       fun _ => 0⟩ 3 ⟨["x"], [], 0⟩ [⟨1, 2, 3, 4, 5, 6, 7⟩] ⟨false⟩ ⟨false⟩
      (by omega) (Or.inr ⟨"x", rfl, rfl⟩) (fun _ => rfl) rfl rfl rfl
      (by simp) (fun i => ⟨le_refl 0, by norm_num⟩)).1,
   (C3_two_backoffs_then_series
      ⟨fun _ => true,
       fun i => if i = 2 then .ok (some [⟨1, 2, 3, 4, 5, 6, 7⟩]) else .error ⟨false⟩,
       fun _ => 0⟩ 3 ⟨["x"], [], 0⟩ [⟨1, 2, 3, 4, 5, 6, 7⟩] ⟨false⟩ ⟨false⟩
      (by omega) (Or.inr ⟨"x", rfl, rfl⟩) (fun _ => rfl) rfl rfl rfl
      (by simp) (fun i => ⟨le_refl 0, by norm_num⟩)).2.1⟩

/-! ## Claim C7: the three outcomes are not distinguishable -/

/-- C7 counterexample: an empty result (`df is None` on attempt 1) and a
retries-exhausted failure (transport errors on all 3 attempts) make
`fetch_daily_quotes` return the very same value `None` — the caller
cannot tell them apart by the returned value, so the claimed
`Series | EmptyResult | Failure` distinction does not exist in the code. -/
theorem C7_counterexample_empty_indistinguishable_from_failure :
    (fetch_daily_quotes ⟨fun _ => true, fun _ => .ok none, fun _ => 0⟩
        3 ⟨[], [], 0⟩).result =
      (fetch_daily_quotes ⟨fun _ => true, fun _ => .error ⟨false⟩, fun _ => 0⟩
        3 ⟨[], [], 0⟩).result ∧
    (fetch_daily_quotes ⟨fun _ => true, fun _ => .ok none, fun _ => 0⟩
        3 ⟨[], [], 0⟩).result = none :=
  ⟨rfl, rfl⟩

/-- C7 (amended): an empty success (a `None` or empty DataFrame) makes
the call return `None` immediately on that attempt — one loop iteration,
no retry, no backoff sleep, no eviction; it is not treated as an error.
The returned value, however, is the same `None` that a retries-exhausted
failure produces. -/
theorem C7_empty_returns_none_immediately (env : FetchEnv) (mr : Nat) (pm : ProxyManager)
    (hmr : 1 ≤ mr)
    (hfreq : env.freqOk 0 = true)
    (hpm : pm.proxies = [] ∨ pm.currentIndex < pm.proxies.length)
    (hempty : env.fetch 0 = .ok none ∨ env.fetch 0 = .ok (some [])) :
    (fetch_daily_quotes env mr pm).result = none ∧
    (fetch_daily_quotes env mr pm).iterations = 1 ∧
    (fetch_daily_quotes env mr pm).sleeps = [] ∧
    (fetch_daily_quotes env mr pm).evictions = [] := by
  obtain ⟨k, rfl⟩ : ∃ k, mr = k + 1 := ⟨mr - 1, by omega⟩
  obtain ⟨l, fp, ci⟩ := pm
  have hstep : ∃ pm1, fetchStep env (k + 1) 0 ⟨l, fp, ci⟩ = .finished none pm1 := by
    rcases hpm with hemp | hc
    · simp only at hemp
      subst hemp
      rcases hempty with he | he
      · exact ⟨⟨[], fp, ci⟩, by simp [fetchStep, get_proxy, hfreq, he]⟩
      · exact ⟨⟨[], fp, ci⟩, by simp [fetchStep, get_proxy, hfreq, he]⟩
    · simp only at hc
      rcases hempty with he | he
      · exact ⟨⟨l, fp, (ci + 1) % l.length⟩,
          by simp [fetchStep, get_proxy_valid l fp ci hc, hfreq, he]⟩
      · exact ⟨⟨l, fp, (ci + 1) % l.length⟩,
          by simp [fetchStep, get_proxy_valid l fp ci hc, hfreq, he]⟩
  obtain ⟨pm1, hstep⟩ := hstep
  have hT : fetch_daily_quotes env (k + 1) ⟨l, fp, ci⟩ = ⟨none, 1, [], [], 0, pm1⟩ := by
    simp [fetch_daily_quotes, fetchGo, hstep]
  rw [hT]
  exact ⟨rfl, rfl, rfl, rfl⟩

/-- Witness for C7 (amended): a `None` DataFrame on the first attempt of
a direct-connection call. -/
theorem C7_empty_returns_none_immediately_witness :
    (fetch_daily_quotes ⟨fun _ => true, fun _ => .ok none, fun _ => 0⟩
        1 ⟨[], [], 0⟩).result = none ∧
    (fetch_daily_quotes ⟨fun _ => true, fun _ => .ok none, fun _ => 0⟩
        1 ⟨[], [], 0⟩).iterations = 1 :=
  ⟨(C7_empty_returns_none_immediately ⟨fun _ => true, fun _ => .ok none, fun _ => 0⟩
      1 ⟨[], [], 0⟩ (by omega) rfl (Or.inl rfl) (Or.inl rfl)).1,
   (C7_empty_returns_none_immediately ⟨fun _ => true, fun _ => .ok none, fun _ => 0⟩
      1 ⟨[], [], 0⟩ (by omega) rfl (Or.inl rfl) (Or.inl rfl)).2.1⟩

/-! ## Claim C6: the batch upsert is an idempotent keyed merge -/

/-- Folding chunk-by-chunk with a chunk-invariant step equals folding
the records directly (fuel-bounded induction). -/
theorem chunks_foldl_bounded {α β : Type _} (b : Nat) (f : β → α → β) :
    ∀ (n : Nat) (l : List α), l.length ≤ n → ∀ (init : β),
      (chunks (b + 1) l).foldl (fun acc c => c.foldl f acc) init = l.foldl f init := by
  intro n
  induction n with
  | zero =>
    intro l hl init
    have hnil : l = [] := List.eq_nil_of_length_eq_zero (by omega)
    subst hnil
    simp [chunks]
  | succ n ih =>
    intro l hl init
    match l with
    | [] => simp [chunks]
    | x :: xs =>
      simp only [chunks, List.foldl_cons]
      rw [ih ((x :: xs).drop (b + 1))
        (by simp only [List.length_drop, List.length_cons] at hl ⊢; omega)]
      rw [← List.foldl_append, List.take_append_drop, List.foldl_cons]

/-- Folding chunk-by-chunk with a chunk-invariant step equals folding
the records directly: the `range(0, len, bs)` slicing partitions the
list. -/
theorem chunks_foldl {α β : Type _} (b : Nat) (f : β → α → β) (l : List α) (init : β) :
    (chunks (b + 1) l).foldl (fun acc c => c.foldl f acc) init = l.foldl f init :=
  chunks_foldl_bounded b f l.length l le_rfl init

/-- On a non-empty record list, `_upsert_quotes` is the plain fold of
`stepRecord` over all records, since with `autoflush=False` every
chunk's existence query sees the same call-start snapshot. -/
theorem upsert_as_fold (batchSize : Nat) (db : List DailyQuoteRow) (code : String)
    (rows : List RawRow) (hrows : rows.isEmpty = false) :
    _upsert_quotes batchSize db code (some rows) =
      (rows.map toRecord).foldl (stepRecord code db) (0, db) := by
  obtain ⟨b, hb⟩ : ∃ b, max 1 batchSize = b + 1 := ⟨max 1 batchSize - 1, by omega⟩
  show (match some rows with
    | none => (0, db)
    | some rows => if rows.isEmpty then (0, db) else
        (chunks (max 1 batchSize) (rows.map toRecord)).foldl (upsertChunk code db) (0, db)) = _
  rw [hb]
  simp only [hrows, Bool.false_eq_true, if_false]
  exact chunks_foldl b (stepRecord code db) (rows.map toRecord) (0, db)

/-- The step adds one to the count for every record, in both branches. -/
theorem fold_stepRecord_count (code : String) (snap : List DailyQuoteRow) :
    ∀ (records : List QuoteRecord) (acc : Nat × List DailyQuoteRow),
      (records.foldl (stepRecord code snap) acc).1 = acc.1 + records.length := by
  intro records
  induction records with
  | nil => intro acc; simp
  | cons rec rest ih =>
    intro acc
    have hone : (stepRecord code snap acc rec).1 = acc.1 + 1 := by
      unfold stepRecord
      split <;> rfl
    simp only [List.foldl_cons, ih, hone, List.length_cons]
    omega

/-- The update branch rewrites only non-key fields, so key membership is
untouched. -/
theorem isKey_applyRecord (code : String) (d : ℤ) (rec : QuoteRecord) (row : DailyQuoteRow) :
    isKey code d (applyRecord rec row) = isKey code d row := rfl

/-- A freshly inserted row carries its record's key. -/
theorem isKey_mkRow_self (code : String) (rec : QuoteRecord) :
    isKey code rec.date (mkRow code rec) = true := by
  simp [isKey, mkRow]

/-- A freshly inserted row does not match any other date. -/
theorem isKey_mkRow_ne (code : String) (d : ℤ) (rec : QuoteRecord) (h : rec.date ≠ d) :
    isKey code d (mkRow code rec) = false := by
  simp [isKey, mkRow, h]

/-- Updating a row that sits at the record's key leaves exactly the row
an insert would have produced. -/
theorem applyRecord_of_isKey (code : String) (rec : QuoteRecord) (row : DailyQuoteRow)
    (h : isKey code rec.date row = true) : applyRecord rec row = mkRow code rec := by
  cases row with
  | mk sc d o hi lo c v a adj =>
    simp only [isKey, Bool.and_eq_true, beq_iff_eq] at h
    simp [applyRecord, mkRow, h.1, h.2]

/-- The update pass leaves filters at any other date unchanged. -/
theorem filter_update_other (code : String) (rec : QuoteRecord) (d : ℤ) (hd : rec.date ≠ d)
    (db : List DailyQuoteRow) :
    (db.map fun row => if isKey code rec.date row then applyRecord rec row else row).filter
        (isKey code d) = db.filter (isKey code d) := by
  induction db with
  | nil => rfl
  | cons row t ih =>
    have hkey : isKey code d (if isKey code rec.date row then applyRecord rec row else row) =
        isKey code d row := by
      split <;> simp [isKey_applyRecord]
    by_cases h : isKey code d row = true
    · have hfr : (if isKey code rec.date row then applyRecord rec row else row) = row := by
        have hne : isKey code rec.date row = false := by
          simp only [isKey, Bool.and_eq_true, beq_iff_eq] at h
          simp [isKey, h.2, hd.symm]
        simp [hne]
      simp only [List.map_cons, List.filter_cons, hkey, h, if_true, hfr, ih]
    · have h' : isKey code d row = false := by simpa using h
      simp only [List.map_cons, List.filter_cons, hkey, h', Bool.false_eq_true, if_false, ih]

/-- The update pass turns the (filtered) rows at the record's own key
into updated rows. -/
theorem filter_update_self (code : String) (rec : QuoteRecord) (db : List DailyQuoteRow) :
    (db.map fun row => if isKey code rec.date row then applyRecord rec row else row).filter
        (isKey code rec.date) = (db.filter (isKey code rec.date)).map (applyRecord rec) := by
  induction db with
  | nil => rfl
  | cons row t ih =>
    by_cases h : isKey code rec.date row = true
    · simp only [List.map_cons, List.filter_cons, h, if_true, isKey_applyRecord, ih]
    · have h' : isKey code rec.date row = false := by simpa using h
      simp only [List.map_cons, List.filter_cons, h', Bool.false_eq_true, if_false,
        isKey_applyRecord, ih]

/-- The update pass preserves key membership tests. -/
theorem any_update (code : String) (rec : QuoteRecord) (d : ℤ) (db : List DailyQuoteRow) :
    (db.map fun row => if isKey code rec.date row then applyRecord rec row else row).any
        (isKey code d) = db.any (isKey code d) := by
  induction db with
  | nil => rfl
  | cons row t ih =>
    have hkey : isKey code d (if isKey code rec.date row then applyRecord rec row else row) =
        isKey code d row := by
      split <;> simp [isKey_applyRecord]
    simp only [List.map_cons, List.any_cons, hkey, ih]

/-- Records at other dates never disturb the rows stored at date `d`. -/
theorem fold_filter_frozen (code : String) (snap : List DailyQuoteRow) :
    ∀ (records : List QuoteRecord) (acc : Nat × List DailyQuoteRow) (d : ℤ),
      (∀ rec ∈ records, rec.date ≠ d) →
      ((records.foldl (stepRecord code snap) acc).2.filter (isKey code d)) =
        acc.2.filter (isKey code d) := by
  intro records
  induction records with
  | nil => intro acc d _; rfl
  | cons rec rest ih =>
    intro acc d hd
    have hstep : ((stepRecord code snap acc rec).2.filter (isKey code d)) =
        acc.2.filter (isKey code d) := by
      unfold stepRecord
      split
      · exact filter_update_other code rec d (hd rec (List.mem_cons_self rec rest)) acc.2
      · rw [List.filter_append]
        simp [isKey_mkRow_ne code d rec (hd rec (List.mem_cons_self rec rest))]
    rw [List.foldl_cons, ih (stepRecord code snap acc rec) d
      (fun r hr => hd r (List.mem_cons_of_mem rec hr)), hstep]

/-- After processing a duplicate-free record list whose snapshot
membership agrees with the current store and whose keys are stored at
most once, every processed record's key holds exactly its (updated or
inserted) row. -/
theorem fold_filter_spec (code : String) (snap : List DailyQuoteRow) :
    ∀ (records : List QuoteRecord) (acc : Nat × List DailyQuoteRow),
      (records.map QuoteRecord.date).Nodup →
      (∀ rec ∈ records, snap.any (isKey code rec.date) = acc.2.any (isKey code rec.date)) →
      (∀ rec ∈ records, (acc.2.filter (isKey code rec.date)).length ≤ 1) →
      ∀ r ∈ records,
        ((records.foldl (stepRecord code snap) acc).2.filter (isKey code r.date)) =
          [mkRow code r] := by
  intro records
  induction records with
  | nil => intro acc _ _ _ r hr; exact absurd hr (List.not_mem_nil r)
  | cons rec rest ih =>
    intro acc hnd hsnap hlen r hr
    have hnd1 : rec.date ∉ rest.map QuoteRecord.date := (List.nodup_cons.1 hnd).1
    have hnd2 : (rest.map QuoteRecord.date).Nodup := (List.nodup_cons.1 hnd).2
    have hne : ∀ r' ∈ rest, r'.date ≠ rec.date := by
      intro r' hr' heq
      exact hnd1 (heq ▸ List.mem_map_of_mem QuoteRecord.date hr')
    have hcurStep : ((stepRecord code snap acc rec).2.filter (isKey code rec.date)) =
        [mkRow code rec] := by
      unfold stepRecord
      split
      · rename_i hx
        have hany : acc.2.any (isKey code rec.date) = true :=
          (hsnap rec (List.mem_cons_self rec rest)) ▸ hx
        obtain ⟨row0, hrow0, hkey0⟩ := List.any_eq_true.1 hany
        have hfne : acc.2.filter (isKey code rec.date) ≠ [] := by
          intro hnil
          exact absurd hkey0 (by simpa using List.filter_eq_nil_iff.1 hnil row0 hrow0)
        have hflen : (acc.2.filter (isKey code rec.date)).length = 1 := by
          have h1 := hlen rec (List.mem_cons_self rec rest)
          have h2 : 0 < (acc.2.filter (isKey code rec.date)).length :=
            List.length_pos.2 hfne
          omega
        obtain ⟨row1, hrow1⟩ := List.length_eq_one.1 hflen
        have hkey1 : isKey code rec.date row1 = true := by
          have : row1 ∈ acc.2.filter (isKey code rec.date) := by
            rw [hrow1]; exact List.mem_singleton_self row1
          exact (List.mem_filter.1 this).2
        rw [filter_update_self, hrow1]
        simp [applyRecord_of_isKey code rec row1 hkey1]
      · rename_i hx
        have hany : acc.2.any (isKey code rec.date) = false := by
          have := hsnap rec (List.mem_cons_self rec rest)
          simp only [Bool.not_eq_true] at hx
          exact this ▸ hx
        have hfnil : acc.2.filter (isKey code rec.date) = [] :=
          List.filter_eq_nil_iff.2 (by
            intro row hrow hkey
            exact absurd hany (by simp [List.any_eq_true]; exact ⟨row, hrow, by simpa using hkey⟩))
        rw [List.filter_append, hfnil]
        simp [isKey_mkRow_self]
    have hsnap' : ∀ r' ∈ rest,
        snap.any (isKey code r'.date) = (stepRecord code snap acc rec).2.any (isKey code r'.date) := by
      intro r' hr'
      unfold stepRecord
      split
      · rw [any_update]
        exact hsnap r' (List.mem_cons_of_mem rec hr')
      · rw [List.any_append]
        simp only [List.any_cons, List.any_nil,
          isKey_mkRow_ne code r'.date rec (fun h => hne r' hr' h.symm), Bool.or_false]
        exact hsnap r' (List.mem_cons_of_mem rec hr')
    have hlen' : ∀ r' ∈ rest,
        ((stepRecord code snap acc rec).2.filter (isKey code r'.date)).length ≤ 1 := by
      intro r' hr'
      unfold stepRecord
      split
      · rw [filter_update_other code rec r'.date (fun h => hne r' hr' h.symm)]
        exact hlen r' (List.mem_cons_of_mem rec hr')
      · rw [List.filter_append]
        simp only [List.filter_cons, List.filter_nil,
          isKey_mkRow_ne code r'.date rec (fun h => hne r' hr' h.symm), Bool.false_eq_true,
          if_false, List.append_nil]
        exact hlen r' (List.mem_cons_of_mem rec hr')
    rcases List.mem_cons.1 hr with hreq | hrrest
    · rw [hreq, List.foldl_cons,
        fold_filter_frozen code snap rest (stepRecord code snap acc rec) rec.date hne, hcurStep]
    · rw [List.foldl_cons]
      exact ih (stepRecord code snap acc rec) hnd2 hsnap' hlen' r hrrest

/-- C6: for distinct dates, the upsert counts every record regardless of
branch (the returned count is the number of input records), and after
the call exactly one stored row exists per `(stockCode, date)` key,
carrying that record's field values; since the stored state is
arbitrary, re-running over an overlapping range replaces earlier values
with the later ones. -/
theorem C6_upsert_idempotent_merge (batchSize : Nat) (db0 : List DailyQuoteRow)
    (stockCode : String) (rows : List RawRow)
    (hnd : (rows.map RawRow.date).Nodup)
    (hdb : ∀ d : ℤ, (db0.filter (isKey stockCode d)).length ≤ 1) :
    (_upsert_quotes batchSize db0 stockCode (some rows)).1 = rows.length ∧
    ∀ r ∈ rows,
      (_upsert_quotes batchSize db0 stockCode (some rows)).2.filter
          (isKey stockCode r.date) = [mkRow stockCode (toRecord r)] := by
  by_cases hre : rows.isEmpty = true
  · have hnil : rows = [] := by
      cases rows with
      | nil => rfl
      | cons a t => simp [List.isEmpty] at hre
    subst hnil
    exact ⟨rfl, fun r hr => absurd hr (List.not_mem_nil r)⟩
  · have hre' : rows.isEmpty = false := by simpa using hre
    rw [upsert_as_fold batchSize db0 stockCode rows hre']
    constructor
    · rw [fold_stepRecord_count]
      simp
    · intro r hr
      have hdates : (rows.map toRecord).map QuoteRecord.date = rows.map RawRow.date := by
        rw [List.map_map]
        rfl
      have hnd' : ((rows.map toRecord).map QuoteRecord.date).Nodup := by
        rw [hdates]
        exact hnd
      exact fold_filter_spec stockCode db0 (rows.map toRecord) (0, db0) hnd'
        (fun rec _ => rfl) (fun rec _ => hdb rec.date) (toRecord r)
        (List.mem_map_of_mem toRecord hr)

/-- Witness for C6: upserting the key `("000001", 100)` a second time
with close price 10.5 (21/2) over a store holding the close-10 row
leaves exactly one row for the key, carrying the later value. -/
theorem C6_upsert_idempotent_merge_witness :
    (_upsert_quotes 50 [mkRow "000001" (toRecord ⟨100, 1, 2, 3, 10, 5, 6⟩)] "000001"
        (some [⟨100, 1, 2, 3, 21/2, 5, 6⟩])).1 = 1 ∧
    (_upsert_quotes 50 [mkRow "000001" (toRecord ⟨100, 1, 2, 3, 10, 5, 6⟩)] "000001"
        (some [⟨100, 1, 2, 3, 21/2, 5, 6⟩])).2.filter (isKey "000001" 100) =
      [mkRow "000001" (toRecord ⟨100, 1, 2, 3, 21/2, 5, 6⟩)] :=
  ⟨(C6_upsert_idempotent_merge 50 [mkRow "000001" (toRecord ⟨100, 1, 2, 3, 10, 5, 6⟩)]
      "000001" [⟨100, 1, 2, 3, 21/2, 5, 6⟩] (by simp)
      (fun d => (List.length_filter_le _ _).trans (by simp))).1,
   (C6_upsert_idempotent_merge 50 [mkRow "000001" (toRecord ⟨100, 1, 2, 3, 10, 5, 6⟩)]
      "000001" [⟨100, 1, 2, 3, 21/2, 5, 6⟩] (by simp)
      (fun d => (List.length_filter_le _ _).trans (by simp))).2
     ⟨100, 1, 2, 3, 21/2, 5, 6⟩ (List.mem_singleton_self _)⟩

/-! ## Claim C1: per-instrument fetch failures never abort the run -/

/-- The upsert's returned count, unconditionally: every record of a
non-empty DataFrame counts, and `None`/empty contribute 0. -/
theorem upsert_count (batchSize : Nat) (db : List DailyQuoteRow) (code : String)
    (rows : List RawRow) :
    (_upsert_quotes batchSize db code (some rows)).1 =
      if rows.isEmpty then 0 else rows.length := by
  by_cases hre : rows.isEmpty = true
  · simp only [hre, if_true]
    cases rows with
    | nil => rfl
    | cons a t => simp [List.isEmpty] at hre
  · have hre' : rows.isEmpty = false := by simpa using hre
    rw [upsert_as_fold batchSize db code rows hre', fold_stepRecord_count]
    simp [hre']

/-- The per-instrument loop: each instrument adds 1 to
`stocks_processed` and its fetch value's contribution to
`records_inserted`, independent of the others. -/
theorem processStock_fold (env : TaskEnv) :
    ∀ (stocks : List StockRow) (sp ri : Nat) (db : List DailyQuoteRow),
      (stocks.foldl (processStock env) (sp, ri, db)).1 = sp + stocks.length ∧
      (stocks.foldl (processStock env) (sp, ri, db)).2.1 =
        ri + (stocks.map fun s => contributionOf (env.fetchResult s.code)).sum := by
  intro stocks
  induction stocks with
  | nil =>
    intro sp ri db
    constructor <;> simp
  | cons stock rest ih =>
    intro sp ri db
    rcases hstep : processStock env (sp, ri, db) stock with ⟨sp1, ri1, db1⟩
    have hsp1 : sp1 = sp + 1 ∧ ri1 = ri + contributionOf (env.fetchResult stock.code) := by
      unfold processStock at hstep
      rcases hdf : env.fetchResult stock.code with _ | rows
      · rw [hdf] at hstep
        simp only [Prod.mk.injEq] at hstep
        simp [contributionOf, hdf, hstep.1, hstep.2.1]
      · rw [hdf] at hstep
        by_cases hre : rows.isEmpty = true
        · simp only [hre, if_true] at hstep
          simp only [Prod.mk.injEq] at hstep
          simp [contributionOf, hre, hstep.1, hstep.2.1]
        · have hre' : rows.isEmpty = false := by simpa using hre
          simp only [hre', Bool.false_eq_true, if_false] at hstep
          simp only [Prod.mk.injEq] at hstep
          simp only [contributionOf, hre', Bool.false_eq_true, if_false]
          refine ⟨hstep.1.symm ▸ rfl, ?_⟩
          rw [← hstep.2.1, upsert_count, hre']
          simp
    rw [List.foldl_cons, hstep]
    refine ⟨?_, ?_⟩
    · rw [(ih sp1 ri1 db1).1, hsp1.1, List.length_cons]
      omega
    · rw [(ih sp1 ri1 db1).2, hsp1.2, List.map_cons, List.sum_cons]
      omega

/-- C1: when the audit finalize succeeds, a universe containing an
instrument whose fetch exhausted its retries and returned the failure
value (no exception) still finalizes the run as `success`: every
instrument — the failed one included — is counted in
`stocks_processed`, the failed instrument contributes 0 records, and
`records_inserted` sums the successful instruments' row counts. -/
theorem C1_failed_fetch_never_aborts_run (env : TaskEnv) (db0 : List DailyQuoteRow)
    (hfin : env.finalizeCommitFails = false)
    (hfail : ∃ s ∈ env.stockList, env.fetchResult s.code = none) :
    (fetch_daily_data_task env db0).1 =
      .ok (.success env.stockList.length
        ((env.stockList.map fun s => contributionOf (env.fetchResult s.code)).sum)) ∧
    (fetch_daily_data_task env db0).2.1.status = .success ∧
    (fetch_daily_data_task env db0).2.1.stocksProcessed = env.stockList.length ∧
    (fetch_daily_data_task env db0).2.1.recordsInserted =
      (env.stockList.map fun s => contributionOf (env.fetchResult s.code)).sum ∧
    (∀ s ∈ env.stockList, env.fetchResult s.code = none →
      contributionOf (env.fetchResult s.code) = 0) := by
  obtain ⟨sF, hsF, hsFnone⟩ := hfail
  rcases hfold : env.stockList.foldl (processStock env) (0, 0, db0) with ⟨sp, ri, db1⟩
  have hspec := processStock_fold env env.stockList 0 0 db0
  rw [hfold] at hspec
  simp only at hspec
  have hsp : sp = env.stockList.length := by
    have := hspec.1
    omega
  have hri : ri = (env.stockList.map fun s => contributionOf (env.fetchResult s.code)).sum := by
    have := hspec.2
    omega
  have hT : fetch_daily_data_task env db0 =
      (.ok (.success sp ri), ⟨"scheduled", .success, sp, ri, none, true⟩, db1) := by
    unfold fetch_daily_data_task
    rw [hfold, hfin]
    simp
  rw [hT, hsp, hri]
  exact ⟨rfl, rfl, rfl, rfl, fun s _ hnone => by simp [contributionOf, hnone]⟩

/-- Witness for C1: universe `[A, B]` where `A` yields one row and `B`'s
fetch fails — the run succeeds with `stocksProcessed = 2` and
`recordsInserted = 1`. -/
theorem C1_failed_fetch_never_aborts_run_witness :
    (fetch_daily_data_task
        ⟨[⟨"A", "a"⟩, ⟨"B", "b"⟩],
         fun c => if c = "A" then some [⟨1, 2, 3, 4, 5, 6, 7⟩] else none, 50, false⟩
        []).2.1.status = .success ∧
    (fetch_daily_data_task
        ⟨[⟨"A", "a"⟩, ⟨"B", "b"⟩],
         fun c => if c = "A" then some [⟨1, 2, 3, 4, 5, 6, 7⟩] else none, 50, false⟩
        []).2.1.stocksProcessed = 2 ∧
    (fetch_daily_data_task
        ⟨[⟨"A", "a"⟩, ⟨"B", "b"⟩],
         fun c => if c = "A" then some [⟨1, 2, 3, 4, 5, 6, 7⟩] else none, 50, false⟩
        []).2.1.recordsInserted = 1 := by
  have h := C1_failed_fetch_never_aborts_run
    ⟨[⟨"A", "a"⟩, ⟨"B", "b"⟩],
     fun c => if c = "A" then some [⟨1, 2, 3, 4, 5, 6, 7⟩] else none, 50, false⟩
    [] rfl ⟨⟨"B", "b"⟩, by simp, rfl⟩
  refine ⟨h.2.1, ?_, ?_⟩
  · rw [h.2.2.1]
    rfl
  · rw [h.2.2.2.1]
    rfl

/-! ## Claim C8: failed finalize is recorded, but the exception does not propagate -/

/-- C8 counterexample: on a run whose audit-store finalize `db.commit()`
raises, the task does NOT let the exception propagate to its caller: the
outer `except` swallows it and the call returns normally with a
failed-status dictionary (`Except.ok`, not `Except.error`), even though
the audit row does record the failure. -/
theorem C8_counterexample_exception_not_propagated :
    (fetch_daily_data_task
        ⟨[⟨"A", "a"⟩], fun _ => some [⟨1, 2, 3, 4, 5, 6, 7⟩], 50, true⟩ []).1 =
      Except.ok (TaskReturn.failed auditErrorMessage) ∧
    (fetch_daily_data_task
        ⟨[⟨"A", "a"⟩], fun _ => some [⟨1, 2, 3, 4, 5, 6, 7⟩], 50, true⟩
        []).2.1.status = RunStatus.failed :=
  ⟨rfl, rfl⟩

/-- C8 (amended): the run record transitions to `failed` exactly when an
exception escapes the per-instrument loop (here: the audit-store
finalize commit raising); in that case the failed status and the error
message are recorded on the run record — but the exception is then
caught and the task returns a failed-status dictionary to its caller
instead of re-raising, so no exception ever propagates. -/
theorem C8_failed_only_on_escaping_exception (env : TaskEnv) (db0 : List DailyQuoteRow) :
    ((fetch_daily_data_task env db0).2.1.status = .failed ↔
      env.finalizeCommitFails = true) ∧
    (env.finalizeCommitFails = true →
      (fetch_daily_data_task env db0).1 = .ok (.failed auditErrorMessage) ∧
      (fetch_daily_data_task env db0).2.1.errorMessage = some auditErrorMessage) ∧
    (∀ e : String, (fetch_daily_data_task env db0).1 ≠ .error e) := by
  rcases hfold : env.stockList.foldl (processStock env) (0, 0, db0) with ⟨sp, ri, db1⟩
  cases hfin : env.finalizeCommitFails
  · have hT : fetch_daily_data_task env db0 =
        (.ok (.success sp ri), ⟨"scheduled", .success, sp, ri, none, true⟩, db1) := by
      unfold fetch_daily_data_task
      rw [hfold, hfin]
      simp
    rw [hT]
    refine ⟨by simp, by simp, ?_⟩
    intro e h
    simp at h
  · have hT : fetch_daily_data_task env db0 =
        (.ok (.failed auditErrorMessage),
         ⟨"scheduled", .failed, 0, 0, some auditErrorMessage, true⟩, db1) := by
      unfold fetch_daily_data_task
      rw [hfold, hfin]
      simp
    rw [hT]
    refine ⟨by simp, by simp, ?_⟩
    intro e h
    simp at h

/-- Witness for C8 (amended): a failing finalize on a one-instrument
universe. -/
theorem C8_failed_only_on_escaping_exception_witness :
    ((fetch_daily_data_task ⟨[⟨"A", "a"⟩], fun _ => none, 50, true⟩ []).2.1.status =
        .failed ↔ true = true) ∧
    (fetch_daily_data_task ⟨[⟨"A", "a"⟩], fun _ => none, 50, true⟩ []).1 =
      .ok (.failed auditErrorMessage) :=
  ⟨(C8_failed_only_on_escaping_exception ⟨[⟨"A", "a"⟩], fun _ => none, 50, true⟩ []).1,
   ((C8_failed_only_on_escaping_exception ⟨[⟨"A", "a"⟩], fun _ => none, 50, true⟩ []).2.1
      rfl).1⟩
